import Mathlib

/-!
Verification of the `pyopt` command-line binding library (`pyopt.py`).

The Python source is shallowly embedded: each method of the library is
translated into an executable Lean function over explicit data.  Python
exceptions are modelled by the `PyExc` error type together with `Except`;
Python's insertion-ordered dictionaries are modelled by association lists
with in-place overwrite (`dictSet`).  Machine-independent data only is
involved (strings, lists, integers), so the embedding is exact up to the
noted points (Python `set` iteration order, full unicode numerals in
`int()`), none of which the proved statements depend on.
-/

/-- Python exceptions raised (directly or indirectly) by `pyopt.py`.
`pyoptError` is the library's own `PyoptError`, `printHelp` its
`PrintHelp` subclass (payload: the exception argument, which in the code
is either a usage string or `None`).  The remaining constructors are the
built-in / `getopt` exceptions that the code can let escape. -/
inductive PyExc where
  | pyoptError (msg : String)
  | printHelp (txt : Option String)
  | valueError (msg : String)
  | keyError (key : String)
  | indexError
  | notImplementedError (msg : String)
  | getoptError (msg : String)
  | unboundLocalError (var : String)
  deriving DecidableEq, Repr

/-- Values produced by the casters used in the repository (str, int, bool).
`float` casters never occur in any claim and are not modelled. -/
inductive Value where
  | vStr (s : String)
  | vInt (n : Int)
  | vBool (b : Bool)
  deriving DecidableEq, Repr

/-- The annotation (caster) attached to a parameter: `str` (also the
default when unannotated), `int`, or the boolean sentinel `bool`. -/
inductive Caster where
  | cStr
  | cInt
  | cBool
  deriving DecidableEq, Repr

instance {ε α : Type} [DecidableEq ε] [DecidableEq α] : DecidableEq (Except ε α) := fun a b =>
  match a, b with
  | .ok x, .ok y => decidable_of_iff (x = y) (by simp)
  | .error x, .error y => decidable_of_iff (x = y) (by simp)
  | .ok _, .error _ => .isFalse (fun h => nomatch h)
  | .error _, .ok _ => .isFalse (fun h => nomatch h)

/-- Decimal digits of a natural number, most significant first, with
explicit fuel (structural recursion so the kernel can evaluate it). -/
def natDigitsAux : Nat → Nat → List Char
  | 0, _ => []
  | fuel + 1, n =>
    if n < 10 then [Char.ofNat (48 + n)]
    else natDigitsAux fuel (n / 10) ++ [Char.ofNat (48 + n % 10)]

/-- Decimal digits of a natural number, most significant first
(the rendering used by `%d` in the Python error messages).  The fuel
`n + 1` always exceeds the number of decimal digits of `n`. -/
def natDigits (n : Nat) : List Char := natDigitsAux (n + 1) n

/-- Decimal rendering of a natural number as a string. -/
def natStr (n : Nat) : String := String.mk (natDigits n)

/-- Numeric value of a nonempty all-digit character list (`int()` body). -/
def digitsVal (cs : List Char) : Option Nat :=
  if cs ≠ [] ∧ cs.all Char.isDigit then
    some (cs.foldl (fun a c => a * 10 + (c.toNat - 48)) 0)
  else none

/-- Python `int(s)`: optional surrounding whitespace, an optional sign,
then at least one decimal digit.  (Underscore separators and non-ASCII
digits, which CPython also accepts, are not modelled; no claim uses
them.) -/
def pyParseInt (s : String) : Option Int :=
  let cs := (s.toList.dropWhile Char.isWhitespace).reverse.dropWhile Char.isWhitespace |>.reverse
  match cs with
  | '+' :: rest => (digitsVal rest).map Int.ofNat
  | '-' :: rest => (digitsVal rest).map (fun n => -(n : Int))
  | rest => (digitsVal rest).map Int.ofNat

/-- Applying a caster to a raw token, i.e. calling `self.casts[name](val)`.
`str` always succeeds; `bool` is Python truthiness of the string (empty ↦
`False`); `int` fails with the CPython `ValueError` message on a
non-numeric literal. -/
def applyCast : Caster → String → Except PyExc Value
  | .cStr, s => .ok (.vStr s)
  | .cBool, s => .ok (.vBool (decide (s ≠ "")))
  | .cInt, s =>
    match pyParseInt s with
    | some n => .ok (.vInt n)
    | none => .error (.valueError ("invalid literal for int() with base 10: '" ++ s ++ "'"))

/-- An insertion-ordered string-keyed dictionary (Python `dict`),
modelled as an association list whose keys are unique by construction. -/
abbrev KW := List (String × Value)

/-- Python `d[k] = v`: overwrite in place if the key exists (keeping its
position, as Python 3.7+ dicts do), otherwise append.  Keys are unique in
every dictionary built here, so replacing the first occurrence is exact. -/
def dictSet : KW → String → Value → KW
  | [], k, v => [(k, v)]
  | p :: ps, k, v => if p.1 == k then (k, v) :: ps else p :: dictSet ps k v

/-- The key list of a dictionary. -/
def keysOf (d : KW) : List String := d.map Prod.fst

/-- Python `d[k]` as a total lookup returning `Option`. -/
def lookupKW (d : KW) (k : String) : Option Value :=
  (d.find? (fun p => p.1 == k)).map Prod.snd

/-- Python `', '.join(..)`-style list join. -/
def pyJoin (sep : String) : List String → String
  | [] => ""
  | [x] => x
  | x :: xs => x ++ sep ++ pyJoin sep xs

/-- The signature data `FunctionWrapper.__init__` extracts from a
function: the declared parameters in order with their casters
(annotation, defaulting to `str`), the number of trailing defaulted
parameters, and the docstring. -/
structure FuncSig where
  params : List (String × Caster)
  defaults_count : Nat
  doc : Option String := none
  deriving DecidableEq, Repr

namespace FuncSig

/-- `self.arg_names`: declared parameter names in declaration order. -/
def arg_names (f : FuncSig) : List String := f.params.map Prod.fst

/-- Lookup in the `self.casts` dictionary (`{name: annotation or str}`),
total form used where the key is known to be present. -/
def castOf (f : FuncSig) (n : String) : Caster :=
  ((f.params.find? (fun p => p.1 == n)).map Prod.snd).getD .cStr

/-- Python `self.casts[name]`: raises `KeyError` when absent. -/
def pyCastsGet (f : FuncSig) (n : String) : Except PyExc Caster :=
  match f.params.find? (fun p => p.1 == n) with
  | some p => .ok p.2
  | none => .error (.keyError n)

/-- `self.booleans`: parameters whose caster is the `bool` sentinel. -/
def booleans (f : FuncSig) : List String :=
  f.arg_names.filter (fun n => f.castOf n == .cBool)

/-- `not_defaulted` in the constructor: the leading non-defaulted names. -/
def not_defaulted (f : FuncSig) : List String :=
  f.arg_names.take (f.arg_names.length - f.defaults_count)

/-- `self.required`: non-defaulted, non-boolean parameters, in order. -/
def required (f : FuncSig) : List String :=
  f.not_defaulted.filter (fun n => !(f.booleans.contains n))

/-- `self.optional = set(arg_names) - set(required)`.  Python iterates
this `set` in unspecified (hash) order; it is modelled in declaration
order.  No proved statement depends on the order. -/
def optional (f : FuncSig) : List String :=
  f.arg_names.filter (fun n => !(f.required.contains n))

/-- `self.needed_args = len(self.arg_names) - self.defaults_count`. -/
def needed_args (f : FuncSig) : Nat := f.arg_names.length - f.defaults_count

end FuncSig

/-- The `TooFewArguments` message of `ArgsFunction.parse`:
`"%d arguments required, got only %d."`. -/
def tooFewMsg (needed got : Nat) : String :=
  String.mk (natDigits needed ++ " arguments required, got only ".toList
    ++ natDigits got ++ ['.'])

/-- The `TooManyArguments` message of `ArgsFunction.parse`:
`"Got %d arguments and expected at most %d."`. -/
def tooManyMsg (got atMost : Nat) : String :=
  String.mk ("Got ".toList ++ natDigits got ++ " arguments and expected at most ".toList
    ++ natDigits atMost ++ ['.'])

/-- The loop `for arg, arg_name in zip(raw_args, arg_names): ...cast...`
shared by `ArgsFunction.parse` (zipping tokens with all names) and
`MixedFunction.parse` (zipping the leftover tokens with the leftover
names).  `zip` stops at the shorter list; the first failing cast aborts. -/
def castByNames (f : FuncSig) : List String → List String → Except PyExc (List Value)
  | _, [] => .ok []
  | [], _ :: _ => .ok []
  | n :: ns, v :: vs =>
    match f.pyCastsGet n with
    | .error e => .error e
    | .ok c =>
      match applyCast c v with
      | .error e => .error e
      | .ok w =>
        match castByNames f ns vs with
        | .error e => .error e
        | .ok ws => .ok (w :: ws)

/-- `ArgsFunction.parse`: the Positional binding strategy. -/
def argsParse (f : FuncSig) (raw : List String) : Except PyExc (List Value × KW) :=
  if raw.length < f.needed_args then
    .error (.pyoptError (tooFewMsg f.needed_args raw.length))
  else if raw.length > f.arg_names.length then
    .error (.pyoptError (tooManyMsg raw.length f.arg_names.length))
  else
    (castByNames f f.arg_names raw).map (fun vs => (vs, []))

/-- Python `name[0]` on a parameter name.  Parameter names are Python
identifiers and hence nonempty; the `'?'` placeholder for the empty
string is never produced in that situation (Python would raise
`IndexError` there, which no claim exercises). -/
def first0 (s : String) : Char := s.toList.headD '?'

/-- Insertion/overwrite into the char-keyed `short_to_name` dictionary. -/
def setShort : List (Char × String) → Char → String → List (Char × String)
  | [], c, n => [(c, n)]
  | p :: ps, c, n => if p.1 == c then (c, n) :: ps else p :: setShort ps c n

/-- `short_to_name = {name[0]: name for name in self.arg_names}`: the
first-letter map; for names sharing a first letter, the later one wins. -/
def shortMap (names : List String) : List (Char × String) :=
  names.foldl (fun m n => setShort m (first0 n) n) []

/-- Python `short_to_name[c]` as a total `Option` lookup. -/
def lookupShort (m : List (Char × String)) (c : Char) : Option String :=
  (m.find? (fun p => p.1 == c)).map Prod.snd

/-- The loop `for name in self.booleans: args_dict[name] = False`
initializing the bound map of `KwargsFunction.parse`. -/
def initBools (f : FuncSig) : KW :=
  f.booleans.foldl (fun d n => dictSet d n (.vBool false)) []

/-- The `for short in argument[1:]` clustered-boolean loop of
`KwargsFunction.parse`: resolve each character through the first-letter
map (raising `KeyError` for an unknown letter), fail on a resolved
non-boolean parameter, else set it `True`.  The second component is the
final value of the Python loop variable `name` (it stays live after the
loop). -/
def clusterFold (f : FuncSig) (stn : List (Char × String)) :
    List Char → KW → Option String → Except PyExc (KW × Option String)
  | [], d, last => .ok (d, last)
  | c :: cs, d, _ =>
    match lookupShort stn c with
    | none => .error (.keyError (String.mk [c]))
    | some name =>
      if f.booleans.contains name then
        clusterFold f stn cs (dictSet d name (.vBool true)) (some name)
      else
        .error (.pyoptError ("Illegal option '" ++ String.mk [c] ++ "' given as boolean."))

/-- The shared tail of the loop body of `KwargsFunction.parse`, reached
once the iteration has determined `name`: the `arg_names` membership
check, the boolean test, and — for non-boolean parameters — consumption
of the next token as the raw value, cast with the parameter's caster.
Returns the remaining tokens, the new value of the Python local `name`,
and the updated dictionary. -/
def kwResolve (f : FuncSig) (name : String) (rest : List String) (d : KW) :
    Except PyExc (List String × Option String × KW) :=
  if !(f.arg_names.contains name) then
    .error (.pyoptError ("Illegal option '" ++ name ++ "' given."))
  else
    match f.pyCastsGet name with
    | .error e => .error e
    | .ok vt =>
      if vt == .cBool then .ok (rest, some name, dictSet d name (.vBool true))
      else
        match rest with
        | [] => .error .indexError
        | v :: rest' =>
          match applyCast vt v with
          | .error e => .error e
          | .ok w => .ok (rest', some name, dictSet d name w)

/-- One iteration of the `while i < len(raw_args)` loop of
`KwargsFunction.parse`, acting on the character list of the current
token: a `--` prefix takes the remainder as the full name, a
two-character `-c` token goes through the first-letter map (`KeyError`
when absent), a longer single-hyphen token is a boolean cluster, and a
lone `-` re-reads the stale `name` local (`nameVar`; unbound on the
first iteration).  A token without a leading hyphen is rejected. -/
def kwStep (f : FuncSig) (stn : List (Char × String)) (cs : List Char)
    (rest : List String) (nameVar : Option String) (d : KW) :
    Except PyExc (List String × Option String × KW) :=
  match cs with
  | '-' :: '-' :: nm => kwResolve f (String.mk nm) rest d
  | ['-', c] =>
    match lookupShort stn c with
    | none => .error (.keyError (String.mk [c]))
    | some name => kwResolve f name rest d
  | '-' :: c1 :: c2 :: cs' =>
    match clusterFold f stn (c1 :: c2 :: cs') d none with
    | .error e => .error e
    | .ok (d', last) => .ok (rest, last, d')
  | ['-'] =>
    match nameVar with
    | none => .error (.unboundLocalError "name")
    | some name => kwResolve f name rest d
  | _ => .error (.pyoptError "Options must start with '-' or '--'.")

/-- The `while i < len(raw_args)` scan of `KwargsFunction.parse`: apply
`kwStep` to each leading token.  The `Nat` argument is fuel bounding the
recursion: `kwParse` supplies `raw.length`, and since every iteration
consumes at least one token the `0, _ :: _` case is never reached. -/
def kwLoop (f : FuncSig) (stn : List (Char × String)) :
    Nat → List String → Option String → KW → Except PyExc KW
  | _, [], _, d => .ok d
  | 0, _ :: _, _, _ => .error .indexError
  | fuel + 1, a :: rest, nameVar, d =>
    match kwStep f stn a.toList rest nameVar d with
    | .error e => .error e
    | .ok (rest', nameVar', d') => kwLoop f stn fuel rest' nameVar' d'

/-- `KwargsFunction.parse`: the Switch binding strategy. -/
def kwParse (f : FuncSig) (raw : List String) : Except PyExc (List Value × KW) :=
  match kwLoop f (shortMap f.arg_names) raw.length raw none (initBools f) with
  | .error e => .error e
  | .ok d =>
    let not_given := f.required.filter (fun r => !((keysOf d).contains r))
    if not_given.isEmpty then .ok ([], d)
    else
      .error (.pyoptError ("The following options are required: "
        ++ pyJoin ", " not_given ++ "."))

/-- Charwise `str.startswith` (kernel-evaluable form). -/
def strStartsWith (s p : String) : Bool := p.toList.isPrefixOf s.toList

/-- `getopt.long_has_args`: prefix-match `opt` against the declared long
options; exact match wins, then exact match with `'='`, then a unique
prefix (whose trailing `'='` marks a required argument). -/
def longHasArgs (opt : String) (longopts : List String) : Except PyExc (Bool × String) :=
  match longopts.filter (fun o => strStartsWith o opt) with
  | [] => .error (.getoptError ("option --" ++ opt ++ " not recognized"))
  | p :: rest =>
    if (p :: rest).contains opt then .ok (false, opt)
    else if (p :: rest).contains (opt ++ "=") then .ok (true, opt)
    else
      match rest with
      | _ :: _ => .error (.getoptError ("option --" ++ opt ++ " not a unique prefix"))
      | [] =>
        if p.toList.getLast? == some '=' then .ok (true, String.mk p.toList.dropLast)
        else .ok (false, p)

/-- `getopt.do_longs` on the token text after `--`: split at the first
`'='`, resolve the name, then take the value from after the `'='`, from
the next token (for argument-taking options), or as `''`. -/
def doLongs (longopts : List String) (optPart : List Char) (args : List String) :
    Except PyExc ((String × String) × List String) :=
  let sp := optPart.span (fun c => c ≠ '=')
  let optarg : Option String :=
    match sp.2 with
    | '=' :: after => some (String.mk after)
    | _ => none
  match longHasArgs (String.mk sp.1) longopts with
  | .error e => .error e
  | .ok (hasArg, opt) =>
    if hasArg then
      match optarg with
      | some v => .ok (("--" ++ opt, v), args)
      | none =>
        match args with
        | [] => .error (.getoptError ("option --" ++ opt ++ " requires argument"))
        | a :: rest => .ok (("--" ++ opt, a), rest)
    else
      match optarg with
      | some _ => .error (.getoptError ("option --" ++ opt ++ " must not have an argument"))
      | none => .ok (("--" ++ opt, ""), args)

/-- `getopt.short_has_arg`: scan the short-option string for the first
occurrence of `c` that is not a `':'`; the option takes an argument iff
the next character is `':'`. -/
def shortHasArg (c : Char) : List Char → Except PyExc Bool
  | [] => .error (.getoptError ("option -" ++ String.mk [c] ++ " not recognized"))
  | a :: rest =>
    if a == c && a != ':' then .ok (rest.head? == some ':')
    else shortHasArg c rest

/-- `getopt.do_shorts` on the token text after `-`: consume clustered
short options; an argument-taking option takes the remainder of the
token, or failing that the next token. -/
def doShorts (shorts : List Char) : List Char → List String → List (String × String) →
    Except PyExc (List (String × String) × List String)
  | [], args, acc => .ok (acc, args)
  | c :: restChars, args, acc =>
    match shortHasArg c shorts with
    | .error e => .error e
    | .ok true =>
      match restChars with
      | [] =>
        match args with
        | [] => .error (.getoptError ("option -" ++ String.mk [c] ++ " requires argument"))
        | a :: args' => .ok (acc ++ [("-" ++ String.mk [c], a)], args')
      | _ :: _ => .ok (acc ++ [("-" ++ String.mk [c], String.mk restChars)], args)
    | .ok false => doShorts shorts restChars args (acc ++ [("-" ++ String.mk [c], "")])

/-- The main `getopt.getopt` scan loop: process leading option tokens,
stopping at the first non-option token, a lone `-`, or after a bare
`--` (which is consumed).  `fuel` only bounds the recursion; every
iteration consumes at least one token, so the fuel `args.length` given
by `pyGetopt` is never exhausted. -/
def getoptLoop (shorts : List Char) (longopts : List String) :
    Nat → List String → List (String × String) →
    Except PyExc (List (String × String) × List String)
  | _, [], acc => .ok (acc, [])
  | 0, a :: rest, acc => .ok (acc, a :: rest)
  | fuel + 1, a :: rest, acc =>
    match a.toList with
    | ['-', '-'] => .ok (acc, rest)
    | '-' :: '-' :: nm =>
      match doLongs longopts nm rest with
      | .error e => .error e
      | .ok (pair, args') => getoptLoop shorts longopts fuel args' (acc ++ [pair])
    | '-' :: c :: cs =>
      match doShorts shorts (c :: cs) rest [] with
      | .error e => .error e
      | .ok (pairs, args') => getoptLoop shorts longopts fuel args' (acc ++ pairs)
    | _ => .ok (acc, a :: rest)

/-- `getopt.getopt(args, shortopts, longopts)`. -/
def pyGetopt (args : List String) (shorts : List Char) (longopts : List String) :
    Except PyExc (List (String × String) × List String) :=
  getoptLoop shorts longopts args.length args []

/-- The short-option string `MixedFunction.parse` builds.  Note the
faithful reproduction of the source's `[[name][0] for name in
self.booleans]`, which evaluates to the whole `name` (not its first
letter), so every character of every boolean parameter's full name
lands in the short-option string. -/
def mixedShorts (f : FuncSig) : List Char :=
  (f.booleans.map String.toList).flatten ++ (f.required.map (fun n => [first0 n, ':'])).flatten

/-- The long-option list `MixedFunction.parse` builds: booleans flagless,
required parameters with a value; defaulted non-boolean parameters are
absent. -/
def mixedLongs (f : FuncSig) : List String :=
  f.booleans ++ f.required.map (fun n => n ++ "=")

/-- Python `list.remove`: drop the first occurrence, `ValueError` if the
element is absent. -/
def pyListRemove (l : List String) (x : String) : Except PyExc (List String) :=
  if l.contains x then .ok (l.erase x)
  else .error (.valueError "list.remove(x): x not in list")

/-- Resolution of one `getopt`-returned option text to a parameter name
in `MixedFunction.parse`: a `--` prefix takes the remainder as the full
name, a single hyphen goes through the first-letter map (`KeyError` when
absent), and any other shape falls through to the stale Python local
`name` (unbound on the first iteration). -/
def mixedResolveName (stn : List (Char × String)) (opt : String)
    (nameVar : Option String) : Except PyExc String :=
  match opt.toList with
  | '-' :: '-' :: nm => .ok (String.mk nm)
  | '-' :: c :: _ =>
    match lookupShort stn c with
    | some n => .ok n
    | none => .error (.keyError (String.mk [c]))
  | _ =>
    match nameVar with
    | some n => .ok n
    | none => .error (.unboundLocalError "name")

/-- The `for opt, val in optlist` loop of `MixedFunction.parse`: resolve
each returned option to a parameter name, cast the value with that
parameter's caster, record it in the keyword dictionary, and remove the
parameter from the positional candidate list (`arg_names.remove(name)`,
`ValueError` when absent — e.g. when the same option is given twice). -/
def mixedFlagLoop (f : FuncSig) (stn : List (Char × String)) :
    List (String × String) → List String → Option String → KW →
    Except PyExc (KW × List String)
  | [], names, _, kw => .ok (kw, names)
  | (opt, val) :: restOpts, names, nameVar, kw =>
    match mixedResolveName stn opt nameVar with
    | .error e => .error e
    | .ok name =>
      match f.pyCastsGet name with
      | .error e => .error e
      | .ok vt =>
        match applyCast vt val with
        | .error e => .error e
        | .ok w =>
          match pyListRemove names name with
          | .error e => .error e
          | .ok names' => mixedFlagLoop f stn restOpts names' (some name) (dictSet kw name w)

/-- `MixedFunction.parse`: the Hybrid binding strategy.  A `getopt` scan
of the leading flags, the flag-binding loop, then positional binding of
the leftover tokens against the leftover parameter names. -/
def mixedParse (f : FuncSig) (raw : List String) : Except PyExc (List Value × KW) :=
  match pyGetopt raw (mixedShorts f) (mixedLongs f) with
  | .error e => .error e
  | .ok (optlist, rest) =>
    match mixedFlagLoop f (shortMap f.arg_names) optlist f.arg_names none [] with
    | .error e => .error e
    | .ok (kw, names) =>
      match castByNames f names rest with
      | .error e => .error e
      | .ok vals => .ok (vals, kw)

/-- A registered command: the wrapper subclass chosen by the decorator
(`expose.args`, `expose.kwargs`, `expose.mixed`) around its signature. -/
inductive Wrapped where
  | argsW (f : FuncSig)
  | kwargsW (f : FuncSig)
  | mixedW (f : FuncSig)
  deriving DecidableEq, Repr

/-- The signature held by a wrapper. -/
def wsig : Wrapped → FuncSig
  | .argsW f => f
  | .kwargsW f => f
  | .mixedW f => f

/-- Virtual dispatch of `parse` over the wrapper subclasses. -/
def wparse : Wrapped → List String → Except PyExc (List Value × KW)
  | .argsW f, raw => argsParse f raw
  | .kwargsW f, raw => kwParse f raw
  | .mixedW f, raw => mixedParse f raw

/-- `ArgsFunction.parameters_repr`. -/
def argsRepr (f : FuncSig) : String :=
  pyJoin " " [pyJoin " " f.required,
    pyJoin " " (f.optional.map (fun a => "[" ++ a ++ "]"))]

/-- `KwargsFunction.parameters_repr` (the `MixedFunction` version is the
same code). -/
def kwRepr (f : FuncSig) : String :=
  let req_str := pyJoin " " (f.required.map (fun a => "-" ++ String.mk [first0 a] ++ " " ++ a))
  let opt_str := pyJoin " " ((f.optional.filter (fun a => !(f.booleans.contains a))).map
    (fun a => "[-" ++ String.mk [first0 a] ++ " " ++ a ++ "]"))
  let bools_str := pyJoin " " (f.booleans.map (fun a => "[-" ++ String.mk [first0 a] ++ "]"))
  pyJoin " " [req_str, opt_str, bools_str]

/-- Virtual dispatch of `parameters_repr` over the wrapper subclasses. -/
def wrepr : Wrapped → String
  | .argsW f => argsRepr f
  | .kwargsW f => kwRepr f
  | .mixedW f => kwRepr f

/-- Python `str.strip()` (whitespace from both ends). -/
def pyStrip (s : String) : String :=
  String.mk ((s.toList.dropWhile Char.isWhitespace).reverse.dropWhile Char.isWhitespace
    |>.reverse)

/-- Split a character list at every occurrence of `c`. -/
def splitChar (c : Char) : List Char → List (List Char)
  | [] => [[]]
  | a :: rest =>
    let r := splitChar c rest
    if a == c then [] :: r
    else
      match r with
      | h :: t => (a :: h) :: t
      | [] => [[a]]

/-- Python `str.splitlines()` as used by `indent`.  The docstrings of
this repository contain only `'\n'` line breaks and reach `indent`
already stripped, on which the two functions agree. -/
def pySplitLines (s : String) : List String := (splitChar '\n' s.toList).map String.mk

/-- The module-level `indent(string, tab_count)` helper. -/
def indent (s : String) (tab_count : Nat) : String :=
  pyJoin "\n" ((pySplitLines s).map
    (fun ln => String.mk (List.replicate tab_count '\t') ++ pyStrip ln))

/-- `FunctionWrapper.get_doc`. -/
def get_doc (f : FuncSig) : String :=
  match f.doc with
  | none => ""
  | some d => indent (pyStrip d) 2

/-- `FunctionWrapper.get_usage`: `"\t%s %s\n%s"`. -/
def getUsage (name : String) (w : Wrapped) : String :=
  String.mk ['\t'] ++ name ++ " " ++ wrepr w ++ String.mk ['\n'] ++ get_doc (wsig w)

/-- The lines printed by `print_usage_single_func` (the module-level
helper): the usage header and, when a docstring exists, its re-indented
text.  The function prints these and returns `None`. -/
def usageSingleLines (script : String) (w : Wrapped) : List String :=
  ["Usage: " ++ script ++ " " ++ wrepr w] ++
    (match (wsig w).doc with
     | none => []
     | some d => [indent (pyStrip d) 1])

/-- `self.functions_dict`: the insertion-ordered command registry. -/
abbrev Registry := List (String × Wrapped)

/-- Python `name in self.functions_dict` / `self.functions_dict[name]`. -/
def lookupW (reg : Registry) (n : String) : Option Wrapped :=
  (reg.find? (fun p => p.1 == n)).map Prod.snd

/-- Registry insertion with dict semantics (overwrite in place). -/
def dictSetW : Registry → String → Wrapped → Registry
  | [], k, w => [(k, w)]
  | p :: ps, k, w => if p.1 == k then (k, w) :: ps else p :: dictSetW ps k w

/-- The `Exposer.args` decorator: registers with no validation. -/
def exposeArgs (reg : Registry) (name : String) (f : FuncSig) : Registry :=
  dictSetW reg name (.argsW f)

/-- The `Exposer.kwargs` decorator: registers with no validation (in
particular, no first-letter collision check). -/
def exposeKwargs (reg : Registry) (name : String) (f : FuncSig) : Registry :=
  dictSetW reg name (.kwargsW f)

/-- The `Exposer.mixed` decorator: registers with no validation. -/
def exposeMixed (reg : Registry) (name : String) (f : FuncSig) : Registry :=
  dictSetW reg name (.mixedW f)

/-- `HELP_SET`. -/
def helpSet : List String := ["-h", "--help", "/?", "?", "-?"]

/-- `os.path.basename` (posix form, as used on `cmd_args[0]`). -/
def pyBasename (s : String) : String := String.mk ((splitChar '/' s.toList).getLastD [])

/-- The lines printed by `Exposer.print_complete_usage` (which returns
`None`). -/
def completeUsageLines (script : String) (reg : Registry) : List String :=
  ["Usage: " ++ script ++ " [function_name] [args]", "Available functions are:"]
    ++ reg.map (fun p => getUsage p.1 p.2)

/-- `Exposer.give_help`: returns the payload of the `PrintHelp` the
caller ends up raising (the specific command's usage text when
`cmd_args[2]` names a known command, otherwise `None`) together with the
lines printed along the way (the complete usage when `cmd_args[2]` is
missing; nothing when it is present but unknown). -/
def giveHelp (reg : Registry) (script : String) (cmdArgs : List String) :
    Option String × List String :=
  match cmdArgs.drop 2 with
  | fn :: _ =>
    match lookupW reg fn with
    | some w => (some (getUsage fn w), [])
    | none => (none, [])
  | [] => (none, completeUsageLines script reg)

/-- `Exposer.parse_args(cmd_args)`: resolve the command (empty registry
raises `NotImplementedError`; a single command takes every following
token; multiple commands route on `cmd_args[1]`), honour help tokens,
and run the command's `parse` on the forwarded tokens.  The second
component is the list of lines printed along the way (the help paths
print directly). -/
def parseArgs (reg : Registry) (cmdArgs : List String) :
    Except PyExc (String × List Value × KW) × List String :=
  match cmdArgs with
  | [] => (.error .indexError, [])
  | prog :: rest1 =>
    let script := pyBasename prog
    match reg with
    | [] => (.error (.notImplementedError "No functions were decorated for command-line usage."), [])
    | [(fname, w)] =>
      match rest1 with
      | t1 :: _ =>
        if helpSet.contains t1 then (.error (.printHelp none), usageSingleLines script w)
        else
          match wparse w rest1 with
          | .error e => (.error e, [])
          | .ok (args, kw) => (.ok (fname, args, kw), [])
      | [] =>
        match wparse w [] with
        | .error e => (.error e, [])
        | .ok (args, kw) => (.ok (fname, args, kw), [])
    | _ :: _ :: _ =>
      match rest1 with
      | [] => (.error (.printHelp none), completeUsageLines script reg)
      | t1 :: rest2 =>
        if helpSet.contains t1 then
          let gh := giveHelp reg script cmdArgs
          (.error (.printHelp gh.1), gh.2)
        else
          match lookupW reg t1 with
          | some w =>
            match wparse w rest2 with
            | .error e => (.error e, [])
            | .ok (args, kw) => (.ok (t1, args, kw), [])
          | none => (.error (.pyoptError ("Unkown function '" ++ t1 ++ "'.")), [])

/-- The outcome of `Exposer.run`: the resolved function was invoked with
the bound arguments; or the run returned normally after printing a
diagnostic; or an exception escaped (crashing the process). -/
inductive RunOutcome where
  | called (name : String) (args : List Value) (kw : KW)
  | finished
  | crashed (e : PyExc)
  deriving DecidableEq, Repr

/-- Python `print(e)` on a `PrintHelp` exception: `str` of its argument,
which renders `None` as the text `"None"`. -/
def pyStrPrintHelp : Option String → String
  | some s => s
  | none => "None"

/-- `Exposer.run(cmd_args)`: call `parse_args`, invoke the function on
success, and convert exactly `PrintHelp`, `ValueError` and `PyoptError`
into printed lines; every other exception escapes. -/
def run (reg : Registry) (cmdArgs : List String) : RunOutcome × List String :=
  match parseArgs reg cmdArgs with
  | (.ok (name, args, kw), out) => (.called name args kw, out)
  | (.error (.printHelp t), out) => (.finished, out ++ [pyStrPrintHelp t])
  | (.error (.valueError m), out) => (.finished, out ++ [m ++ ". Run with ? or -h for more help."])
  | (.error (.pyoptError m), out) => (.finished, out ++ [m ++ " Run with ? or -h for more help."])
  | (.error e, out) => (.crashed e, out)

/-! Concrete signatures and registries from the repository's examples and
tests, used as witnesses below. -/

/-- The `roll_dice(number_of_faces:int, repetitions:int)` signature of
`single.py` (registered with `expose.mixed`). -/
def diceSig : FuncSig := { params := [("number_of_faces", .cInt), ("repetitions", .cInt)], defaults_count := 0 }

/-- The `bigfun(brightness:int, nudge:bool, happy:bool, shaft:str='gold')`
signature of `example.py` (registered with `expose.kwargs`). -/
def bigfunSig : FuncSig := { params := [("brightness", .cInt), ("nudge", .cBool), ("happy", .cBool), ("shaft", .cStr)], defaults_count := 1 }

/-- A one-boolean-parameter signature `(nudge:bool)`. -/
def nudgeSig : FuncSig := { params := [("nudge", .cBool)], defaults_count := 0 }

/-- A one-parameter `(x:int)` signature. -/
def oneIntSig : FuncSig := { params := [("x", .cInt)], defaults_count := 0 }

/-- The `robin(archer:str, boulder, magic:int=42)` shape of the tests,
with the `float` annotation replaced by `str` (floats are irrelevant to
the properties proved here). -/
def robinSig : FuncSig := { params := [("archer", .cStr), ("boulder", .cStr), ("magic", .cInt)], defaults_count := 1 }

/-- Two (defaulted) parameters sharing the first letter `b`, as in
`def collide(brightness:int=1, boulder:str='x')`. -/
def collideSig : FuncSig := { params := [("brightness", .cInt), ("boulder", .cStr)], defaults_count := 2 }

/-- A single-command registry holding `roll_dice`. -/
def diceReg : Registry := [("roll_dice", .mixedW diceSig)]

/-- A single-command registry holding `bigfun`. -/
def bigfunReg : Registry := [("bigfun", .kwargsW bigfunSig)]

/-- A multi-command registry (`bigfun`, `roll_dice`). -/
def multiReg : Registry := [("bigfun", .kwargsW bigfunSig), ("roll_dice", .mixedW diceSig)]

/-! Auxiliary lemmas about the embedded dictionary and list operations. -/

theorem natDigitsAux_ne_nil (fuel n : Nat) : natDigitsAux (fuel + 1) n ≠ [] := by
  unfold natDigitsAux
  split
  · simp
  · simp

theorem isDigit_of_lt_ten {k : Nat} (h : k < 10) : (Char.ofNat (48 + k)).isDigit = true := by
  interval_cases k <;> decide

theorem natDigitsAux_all_digits (fuel : Nat) :
    ∀ n, ∀ c ∈ natDigitsAux fuel n, c.isDigit = true := by
  induction fuel with
  | zero => intro n c hc; simp [natDigitsAux] at hc
  | succ fuel ih =>
    intro n c hc
    unfold natDigitsAux at hc
    split at hc
    · rename_i h
      simp at hc
      subst hc
      exact isDigit_of_lt_ten h
    · simp at hc
      rcases hc with h1 | h2
      · exact ih _ _ h1
      · subst h2
        exact isDigit_of_lt_ten (Nat.mod_lt _ (by omega))

theorem natDigits_head_digit (n : Nat) :
    ∃ c cs, natDigits n = c :: cs ∧ c.isDigit = true := by
  match h : natDigits n with
  | [] => exact absurd h (natDigitsAux_ne_nil n n)
  | c :: cs =>
    refine ⟨c, cs, rfl, ?_⟩
    have hmem : c ∈ natDigits n := h ▸ List.mem_cons_self c cs
    exact natDigitsAux_all_digits (n + 1) n c hmem

theorem tooFewMsg_ne_tooManyMsg (a b x y : Nat) : tooFewMsg a b ≠ tooManyMsg x y := by
  intro h
  obtain ⟨c, cs, hd, hdig⟩ := natDigits_head_digit a
  unfold tooFewMsg tooManyMsg at h
  have h2 : natDigits a ++ " arguments required, got only ".toList ++ natDigits b ++ ['.'] =
      "Got ".toList ++ natDigits x ++ " arguments and expected at most ".toList
        ++ natDigits y ++ ['.'] := congrArg String.data h
  rw [hd, (rfl : "Got ".toList = ['G', 'o', 't', ' '])] at h2
  simp at h2
  obtain ⟨hc, -⟩ := h2
  rw [hc] at hdig
  exact absurd hdig (by decide)

theorem lookupKW_dictSet_self (d : KW) (k : String) (v : Value) :
    lookupKW (dictSet d k v) k = some v := by
  induction d with
  | nil => simp [dictSet, lookupKW]
  | cons p ps ih =>
    by_cases hp : p.1 = k
    · simp [dictSet, lookupKW, hp]
    · simp only [dictSet, lookupKW] at ih ⊢
      simp [hp, ih]

theorem lookupKW_dictSet_ne (d : KW) (k k' : String) (v : Value) (h : k' ≠ k) :
    lookupKW (dictSet d k v) k' = lookupKW d k' := by
  induction d with
  | nil =>
    unfold dictSet lookupKW
    simp [Ne.symm h]
  | cons p ps ih =>
    unfold dictSet
    by_cases hp : p.1 = k
    · rw [if_pos (by simp [hp])]
      unfold lookupKW
      rw [List.find?_cons_of_neg _ (by simp [Ne.symm h]),
        List.find?_cons_of_neg _ (by simp [hp, Ne.symm h])]
    · rw [if_neg (by simp [hp])]
      by_cases hp' : p.1 = k'
      · unfold lookupKW
        rw [List.find?_cons_of_pos _ (by simp [hp']), List.find?_cons_of_pos _ (by simp [hp'])]
      · unfold lookupKW
        rw [List.find?_cons_of_neg _ (by simp [hp']), List.find?_cons_of_neg _ (by simp [hp'])]
        exact ih

theorem mem_keysOf_dictSet (d : KW) (k a : String) (v : Value) :
    a ∈ keysOf (dictSet d k v) ↔ a = k ∨ a ∈ keysOf d := by
  induction d with
  | nil => simp [dictSet, keysOf]
  | cons p ps ih =>
    unfold dictSet
    by_cases hp : p.1 = k
    · rw [if_pos (by simp [hp])]
      simp only [keysOf, List.map_cons, List.mem_cons]
      rw [hp]
      tauto
    · rw [if_neg (by simp [hp])]
      simp only [keysOf, List.map_cons, List.mem_cons]
      simp only [keysOf] at ih
      rw [ih]
      tauto

theorem keysOf_dictSet_of_not_mem (d : KW) (k : String) (v : Value) :
    k ∉ keysOf d → keysOf (dictSet d k v) = keysOf d ++ [k] := by
  induction d with
  | nil => intro _; simp [dictSet, keysOf]
  | cons p ps ih =>
    intro h
    simp only [keysOf, List.map_cons, List.mem_cons] at h
    push_neg at h
    unfold dictSet
    rw [if_neg (by simp; exact fun hh => h.1 hh.symm)]
    simp only [keysOf, List.map_cons, List.cons_append]
    congr 1
    exact ih h.2

theorem contains_keysOf_dictSet_self (d : KW) (k : String) (v : Value) :
    (keysOf (dictSet d k v)).contains k = true := by
  have := (mem_keysOf_dictSet d k k v).mpr (Or.inl rfl)
  exact List.elem_eq_true_of_mem this

theorem pyCastsGet_ok_castOf {f : FuncSig} {n : String} {c : Caster}
    (h : f.pyCastsGet n = .ok c) : f.castOf n = c := by
  unfold FuncSig.pyCastsGet at h
  unfold FuncSig.castOf
  cases hfind : f.params.find? (fun p => p.1 == n) with
  | some q => rw [hfind] at h; simp at h; simp [h]
  | none => rw [hfind] at h; simp at h

theorem pyCastsGet_error_shape {f : FuncSig} {n : String} {e : PyExc}
    (h : f.pyCastsGet n = .error e) : e = .keyError n := by
  unfold FuncSig.pyCastsGet at h
  cases hfind : f.params.find? (fun p => p.1 == n) with
  | some q => rw [hfind] at h; simp at h
  | none => rw [hfind] at h; simp at h; exact h.symm

theorem pyCastsGet_of_mem {f : FuncSig} {n : String} (h : n ∈ f.arg_names) :
    f.pyCastsGet n = .ok (f.castOf n) := by
  have hsome : (f.params.find? (fun p => p.1 == n)).isSome := by
    rw [List.find?_isSome]
    unfold FuncSig.arg_names at h
    obtain ⟨p, hp, hfst⟩ := List.mem_map.mp h
    exact ⟨p, hp, by simp [hfst]⟩
  unfold FuncSig.pyCastsGet FuncSig.castOf
  cases hfind : f.params.find? (fun p => p.1 == n) with
  | some q => simp
  | none => rw [hfind] at hsome; simp at hsome

theorem applyCast_ok_or_valueError (c : Caster) (s : String) :
    (∃ v, applyCast c s = .ok v) ∨ (∃ m, applyCast c s = .error (.valueError m)) := by
  cases c with
  | cStr => exact Or.inl ⟨.vStr s, rfl⟩
  | cBool => exact Or.inl ⟨.vBool (decide (s ≠ "")), rfl⟩
  | cInt =>
    cases h : pyParseInt s with
    | some n => exact Or.inl ⟨.vInt n, by simp [applyCast, h]⟩
    | none =>
      exact Or.inr ⟨"invalid literal for int() with base 10: '" ++ s ++ "'",
        by simp [applyCast, h]⟩

theorem castByNames_ne_pyoptError (f : FuncSig) :
    ∀ (ns ts : List String) (m : String), castByNames f ns ts ≠ .error (.pyoptError m) := by
  intro ns
  induction ns with
  | nil => intro ts m; cases ts <;> simp [castByNames]
  | cons n ns ih =>
    intro ts m
    cases ts with
    | nil => simp [castByNames]
    | cons t ts' =>
      unfold castByNames
      cases hg : f.pyCastsGet n with
      | error e =>
        have he := pyCastsGet_error_shape hg
        subst he
        simp
      | ok c =>
        rcases applyCast_ok_or_valueError c t with ⟨w, hw⟩ | ⟨m', hm⟩
        · cases hrec : castByNames f ns ts' with
          | error e' =>
            simp only [hw, hrec, ne_eq, Except.error.injEq]
            intro heq
            rw [heq] at hrec
            exact ih ts' m hrec
          | ok ws => simp [hw, hrec]
        · simp [hm]

theorem castByNames_ok_spec (f : FuncSig) :
    ∀ (ns ts : List String) (vs : List Value), castByNames f ns ts = .ok vs →
      vs.length = min ns.length ts.length ∧
      ∀ i, i < vs.length →
        applyCast (f.castOf (ns.getD i "")) (ts.getD i "") = .ok (vs.getD i (.vStr "")) := by
  intro ns
  induction ns with
  | nil =>
    intro ts vs h
    cases ts <;> (simp [castByNames] at h; subst h; simp)
  | cons n ns ih =>
    intro ts vs h
    cases ts with
    | nil =>
      simp [castByNames] at h
      subst h
      simp
    | cons t ts' =>
      unfold castByNames at h
      cases hg : f.pyCastsGet n with
      | error e => rw [hg] at h; simp at h
      | ok c =>
        rw [hg] at h
        cases ha : applyCast c t with
        | error e => simp [ha] at h
        | ok w =>
          cases hrec : castByNames f ns ts' with
          | error e => simp [ha, hrec] at h
          | ok ws =>
            simp only [ha, hrec, Except.ok.injEq] at h
            subst h
            obtain ⟨hlen, hget⟩ := ih ts' ws hrec
            have hc : f.castOf n = c := pyCastsGet_ok_castOf hg
            constructor
            · simp [hlen, Nat.succ_min_succ]
            · intro i hi
              cases i with
              | zero => simpa [hc] using ha
              | succ j =>
                simp only [List.getD_cons_succ]
                exact hget j (by simpa using hi)

/-- C2, amended: for every Positional-strategy command and token list,
binding fails with the `TooFewArguments` message iff fewer tokens than
`needed = count - defaults` arrive, fails with the `TooManyArguments`
message iff more tokens than parameters arrive, and otherwise — provided
every token is accepted by its parameter's caster — succeeds with the
i-th value being parameter i's caster applied to token i (stopping at
`len(tokens)`), alongside an empty named map.  (The original claim
omitted the cast proviso; see the counterexample.) -/
theorem claim_c2 (f : FuncSig) (t : List String)
    (hw : f.defaults_count ≤ f.arg_names.length) :
    (argsParse f t = .error (.pyoptError (tooFewMsg f.needed_args t.length)) ↔
      t.length < f.needed_args) ∧
    (argsParse f t = .error (.pyoptError (tooManyMsg t.length f.arg_names.length)) ↔
      t.length > f.arg_names.length) ∧
    (∀ vs, castByNames f f.arg_names t = .ok vs →
      f.needed_args ≤ t.length → t.length ≤ f.arg_names.length →
      argsParse f t = .ok (vs, []) ∧ vs.length = t.length ∧
      ∀ i, i < t.length →
        applyCast (f.castOf (f.arg_names.getD i "")) (t.getD i "") =
          .ok (vs.getD i (.vStr ""))) := by
  have hneed : f.needed_args ≤ f.arg_names.length := by
    unfold FuncSig.needed_args
    omega
  by_cases h1 : t.length < f.needed_args
  · have heq : argsParse f t = .error (.pyoptError (tooFewMsg f.needed_args t.length)) := by
      unfold argsParse
      rw [if_pos h1]
    refine ⟨⟨fun _ => h1, fun _ => heq⟩, ⟨?_, ?_⟩, ?_⟩
    · intro h2
      rw [heq] at h2
      simp at h2
      exact absurd h2 (tooFewMsg_ne_tooManyMsg _ _ _ _)
    · intro h2
      omega
    · intro vs _ hge _
      exact absurd hge (by omega)
  · by_cases h2 : t.length > f.arg_names.length
    · have heq : argsParse f t = .error (.pyoptError (tooManyMsg t.length f.arg_names.length)) := by
        unfold argsParse
        rw [if_neg h1, if_pos h2]
      refine ⟨⟨?_, ?_⟩, ⟨fun _ => h2, fun _ => heq⟩, ?_⟩
      · intro h3
        rw [heq] at h3
        simp at h3
        exact absurd h3.symm (tooFewMsg_ne_tooManyMsg _ _ _ _)
      · intro h3
        exact absurd h3 h1
      · intro vs _ _ hle
        exact absurd hle (by omega)
    · have hbr : argsParse f t = (castByNames f f.arg_names t).map (fun vs => (vs, [])) := by
        unfold argsParse
        rw [if_neg h1, if_neg h2]
      refine ⟨⟨?_, ?_⟩, ⟨?_, ?_⟩, ?_⟩
      · intro h3
        rw [hbr] at h3
        cases hcb : castByNames f f.arg_names t with
        | error e =>
          rw [hcb] at h3
          simp [Except.map] at h3
          rw [h3] at hcb
          exact absurd hcb (castByNames_ne_pyoptError f _ _ _)
        | ok vs =>
          rw [hcb] at h3
          simp [Except.map] at h3
      · intro h3
        exact absurd h3 h1
      · intro h3
        rw [hbr] at h3
        cases hcb : castByNames f f.arg_names t with
        | error e =>
          rw [hcb] at h3
          simp [Except.map] at h3
          rw [h3] at hcb
          exact absurd hcb (castByNames_ne_pyoptError f _ _ _)
        | ok vs =>
          rw [hcb] at h3
          simp [Except.map] at h3
      · intro h3
        exact absurd h3 h2
      · intro vs hvs hge hle
        obtain ⟨hlen, hget⟩ := castByNames_ok_spec f f.arg_names t vs hvs
        have hlen' : vs.length = t.length := by
          rw [hlen]
          omega
        refine ⟨?_, hlen', ?_⟩
        · rw [hbr, hvs]
          simp [Except.map]
        · intro i hi
          exact hget i (by omega)

/-- C2, counterexample: against `(x:int)` the single token `"a"` is
within the arity bounds, yet `parse` does not succeed — the caster
raises `ValueError` — contradicting the claim's unconditional
"otherwise succeeds". -/
theorem claim_c2_counterexample :
    oneIntSig.needed_args ≤ ["a"].length ∧ ["a"].length ≤ oneIntSig.arg_names.length ∧
    argsParse oneIntSig ["a"] =
      .error (.valueError "invalid literal for int() with base 10: 'a'") := by
  decide

/-- C2, witness: the amended characterization applied to the `robin`
signature on two castable tokens (the trailing defaulted parameter is
omitted). -/
theorem claim_c2_witness :
    argsParse robinSig ["a", "b"] = .ok ([.vStr "a", .vStr "b"], []) :=
  ((claim_c2 robinSig ["a", "b"] (by decide)).2.2 [.vStr "a", .vStr "b"]
    (by decide) (by decide) (by decide)).1

theorem lookupShort_setShort_self (m : List (Char × String)) (c : Char) (n : String) :
    lookupShort (setShort m c n) c = some n := by
  induction m with
  | nil => simp [setShort, lookupShort]
  | cons p ps ih =>
    unfold setShort
    by_cases hp : p.1 = c
    · rw [if_pos (by simp [hp])]
      simp [lookupShort]
    · rw [if_neg (by simp [hp])]
      unfold lookupShort
      rw [List.find?_cons_of_neg _ (by simp [hp])]
      exact ih

theorem lookupShort_setShort_ne (m : List (Char × String)) (c c' : Char) (n : String)
    (h : c' ≠ c) : lookupShort (setShort m c n) c' = lookupShort m c' := by
  induction m with
  | nil =>
    unfold setShort lookupShort
    simp [Ne.symm h]
  | cons p ps ih =>
    unfold setShort
    by_cases hp : p.1 = c
    · rw [if_pos (by simp [hp])]
      unfold lookupShort
      rw [List.find?_cons_of_neg _ (by simp [Ne.symm h]),
        List.find?_cons_of_neg _ (by simp [hp, Ne.symm h])]
    · rw [if_neg (by simp [hp])]
      by_cases hp' : p.1 = c'
      · unfold lookupShort
        rw [List.find?_cons_of_pos _ (by simp [hp']), List.find?_cons_of_pos _ (by simp [hp'])]
      · unfold lookupShort
        rw [List.find?_cons_of_neg _ (by simp [hp']), List.find?_cons_of_neg _ (by simp [hp'])]
        exact ih

theorem lookupShort_foldl (c : Char) :
    ∀ (names : List String) (m : List (Char × String)),
      lookupShort (names.foldl (fun m n => setShort m (first0 n) n) m) c =
        ((names.filter (fun n => first0 n == c)).getLast?).orElse
          (fun _ => lookupShort m c) := by
  intro names
  induction names with
  | nil => intro m; simp
  | cons n ns ih =>
    intro m
    simp only [List.foldl_cons]
    rw [ih]
    by_cases hc : first0 n = c
    · rw [List.filter_cons_of_pos (by simp [hc]), hc, lookupShort_setShort_self]
      cases hfil : ns.filter (fun x => first0 x == c) with
      | nil => simp [hfil]
      | cons y ys =>
        rw [List.getLast?_cons_cons]
        cases hlast : (y :: ys).getLast? with
        | none => simp at hlast
        | some z => simp [hlast]
    · rw [List.filter_cons_of_neg (by simp [hc]),
        lookupShort_setShort_ne _ _ _ _ (fun hh => hc hh.symm)]

/-- Resolution through the first-letter map `short_to_name` always picks
the textually last declared parameter whose name starts with the given
letter (the dict comprehension overwrites left to right). -/
theorem shortMap_last_wins (names : List String) (c : Char) :
    lookupShort (shortMap names) c = (names.filter (fun n => first0 n == c)).getLast? := by
  unfold shortMap
  rw [lookupShort_foldl]
  cases h : (names.filter (fun n => first0 n == c)).getLast? with
  | none => simp [h, lookupShort]
  | some z => simp [h]

/-- C3, counterexample: registering `(brightness:int, boulder:str)` —
two parameters sharing the first letter `b` — under the Switch decorator
succeeds (the decorator performs no validation; in the embedding it is a
total function with no error channel), and parsing is reached: the
shared `-b` flag silently resolves to the later parameter `boulder`.
No `ConfigurationError` exists anywhere in the code. -/
theorem claim_c3_counterexample :
    exposeKwargs [] "collide" collideSig = [("collide", .kwargsW collideSig)] ∧
    kwParse collideSig ["-b", "5"] = .ok ([], [("boulder", .vStr "5")]) := by
  decide

/-- C3, amended: registration performs no first-letter validation and
always succeeds — `expose.kwargs` simply stores the wrapper — so a
colliding signature does reach parsing, where the first-letter map
resolves a shared letter to the textually last parameter declared with
it (the map is built left to right with overwriting). -/
theorem claim_c3 :
    (∀ (reg : Registry) (name : String) (f : FuncSig),
      exposeKwargs reg name f = dictSetW reg name (.kwargsW f)) ∧
    (∀ (names : List String) (c : Char),
      lookupShort (shortMap names) c = (names.filter (fun n => first0 n == c)).getLast?) ∧
    exposeKwargs [] "collide" collideSig = [("collide", .kwargsW collideSig)] ∧
    kwParse collideSig ["-b", "5"] = .ok ([], [("boulder", .vStr "5")]) := by
  refine ⟨fun _ _ _ => rfl, shortMap_last_wins, by decide, by decide⟩

theorem contains_eq_false_of_not_mem {l : List String} {a : String} (h : a ∉ l) :
    l.contains a = false := by
  cases hc : l.contains a with
  | false => rfl
  | true =>
    exfalso
    exact h (by simpa using hc)

theorem kwParse_long_unknown (f : FuncSig) (nm : List Char) (rest : List String)
    (h : String.mk nm ∉ f.arg_names) :
    kwParse f (String.mk ('-' :: '-' :: nm) :: rest) =
      .error (.pyoptError ("Illegal option '" ++ String.mk nm ++ "' given.")) := by
  unfold kwParse kwLoop
  simp [kwStep, kwResolve, h]
theorem kwStep_short (f : FuncSig) (stn : List (Char × String)) (c : Char)
    (rest : List String) (nv : Option String) (d : KW) (hc : c ≠ '-') :
    kwStep f stn ['-', c] rest nv d =
      (match lookupShort stn c with
       | none => .error (.keyError (String.mk [c]))
       | some name => kwResolve f name rest d) := by
  unfold kwStep
  split
  · rename_i cs nm heq
    simp at heq
    exact absurd heq.1 hc
  · rename_i cs c' hne heq
    simp at heq
    subst heq
    rfl
  · rename_i cs c1 c2 cs' hne heq
    simp at heq
  · rename_i cs heq
    simp at heq
  · rename_i cs h1 h2 h3 h4
    exact absurd rfl (h2 c)
theorem kwStep_cluster (f : FuncSig) (stn : List (Char × String)) (c1 c2 : Char)
    (cs : List Char) (rest : List String) (nv : Option String) (d : KW) (hc : c1 ≠ '-') :
    kwStep f stn ('-' :: c1 :: c2 :: cs) rest nv d =
      (match clusterFold f stn (c1 :: c2 :: cs) d none with
       | .error e => .error e
       | .ok (d', last) => .ok (rest, last, d')) := by
  unfold kwStep
  split
  · rename_i xs nm heq
    simp at heq
    exact absurd heq.1 hc
  · rename_i xs c' hne heq
    simp at heq
  · rename_i xs d1 d2 ds hne heq
    simp at heq
    obtain ⟨h1, h2, h3⟩ := heq
    subst h1
    subst h2
    subst h3
    rfl
  · rename_i xs heq
    simp at heq
  · rename_i xs h1 h2 h3 h4
    exact absurd rfl (h3 c1 c2 cs)
theorem kwParse_short_unknown (f : FuncSig) (c : Char) (rest : List String)
    (hc : c ≠ '-') (h : lookupShort (shortMap f.arg_names) c = none) :
    kwParse f (String.mk ['-', c] :: rest) = .error (.keyError (String.mk [c])) := by
  unfold kwParse kwLoop
  simp only [List.length_cons]
  dsimp only [String.toList]
  rw [kwStep_short f (shortMap f.arg_names) c rest none (initBools f) hc, h]

theorem kwParse_cluster_unknown (f : FuncSig) (c1 c2 : Char) (cs : List Char)
    (rest : List String) (hc : c1 ≠ '-')
    (h : lookupShort (shortMap f.arg_names) c1 = none) :
    kwParse f (String.mk ('-' :: c1 :: c2 :: cs) :: rest) =
      .error (.keyError (String.mk [c1])) := by
  unfold kwParse kwLoop
  simp only [List.length_cons]
  dsimp only [String.toList]
  rw [kwStep_cluster f (shortMap f.arg_names) c1 c2 cs rest none (initBools f) hc]
  unfold clusterFold
  rw [h]

theorem clusterFold_lookup_preserve (f : FuncSig) (stn : List (Char × String)) :
    ∀ (cs : List Char) (d : KW) (lastIn : Option String) (d' : KW) (last' : Option String),
      clusterFold f stn cs d lastIn = .ok (d', last') →
      ∀ k, lookupKW d' k = lookupKW d k ∨ lookupKW d' k = some (.vBool true) := by
  intro cs
  induction cs with
  | nil =>
    intro d lastIn d' last' h k
    unfold clusterFold at h
    simp at h
    rw [h.1]
    exact Or.inl rfl
  | cons c cs ih =>
    intro d lastIn d' last' h k
    unfold clusterFold at h
    cases hl : lookupShort stn c with
    | none => rw [hl] at h; simp at h
    | some nm =>
      rw [hl] at h
      dsimp only at h
      by_cases hb : f.booleans.contains nm
      · rw [if_pos hb] at h
        rcases ih (dictSet d nm (.vBool true)) (some nm) d' last' h k with h1 | h2
        · by_cases hk : k = nm
          · subst hk
            rw [h1, lookupKW_dictSet_self]
            exact Or.inr rfl
          · rw [h1, lookupKW_dictSet_ne d nm k _ hk]
            exact Or.inl rfl
        · exact Or.inr h2
      · rw [if_neg hb] at h
        simp at h

theorem clusterFold_all_bools (f : FuncSig) (stn : List (Char × String)) :
    ∀ (cs : List Char) (d : KW) (lastIn : Option String),
      (∀ c ∈ cs, ∃ nm, lookupShort stn c = some nm ∧ f.booleans.contains nm = true) →
      ∃ d' last', clusterFold f stn cs d lastIn = .ok (d', last') ∧
        (∀ nm c, c ∈ cs → lookupShort stn c = some nm →
          lookupKW d' nm = some (.vBool true)) := by
  intro cs
  induction cs with
  | nil =>
    intro d lastIn _
    exact ⟨d, lastIn, rfl, by simp⟩
  | cons c cs ih =>
    intro d lastIn hall
    obtain ⟨nm, hl, hb⟩ := hall c (List.mem_cons_self c cs)
    have hall' : ∀ c' ∈ cs, ∃ nm, lookupShort stn c' = some nm ∧
        f.booleans.contains nm = true :=
      fun c' hc' => hall c' (List.mem_cons_of_mem c hc')
    obtain ⟨d', last', hok, hprop⟩ := ih (dictSet d nm (.vBool true)) (some nm) hall'
    refine ⟨d', last', ?_, ?_⟩
    · unfold clusterFold
      rw [hl]
      dsimp only
      rw [if_pos hb]
      exact hok
    · intro nm' c' hc' hl'
      rcases List.mem_cons.mp hc' with rfl | hmem
      · rw [hl] at hl'
        injection hl' with hh
        subst hh
        rcases clusterFold_lookup_preserve f stn cs _ _ _ _ hok nm with h1 | h2
        · rw [h1, lookupKW_dictSet_self]
        · exact h2
      · exact hprop nm' c' hmem hl'

theorem clusterFold_non_bool (f : FuncSig) (stn : List (Char × String)) :
    ∀ (pre : List Char) (c : Char) (post : List Char) (d : KW) (lastIn : Option String)
      (nm : String),
      (∀ c' ∈ pre, ∃ b, lookupShort stn c' = some b ∧ f.booleans.contains b = true) →
      lookupShort stn c = some nm → f.booleans.contains nm = false →
      clusterFold f stn (pre ++ c :: post) d lastIn =
        .error (.pyoptError ("Illegal option '" ++ String.mk [c] ++ "' given as boolean.")) := by
  intro pre
  induction pre with
  | nil =>
    intro c post d lastIn nm _ hl hb
    simp only [List.nil_append]
    unfold clusterFold
    rw [hl]
    dsimp only
    rw [if_neg (by simp at hb ⊢; exact hb)]
  | cons p pre ih =>
    intro c post d lastIn nm hpre hl hb
    obtain ⟨b, hlb, hbb⟩ := hpre p (List.mem_cons_self p pre)
    simp only [List.cons_append]
    unfold clusterFold
    rw [hlb]
    dsimp only
    rw [if_pos hbb]
    exact ih c post (dictSet d b (.vBool true)) (some b) nm
      (fun c' hc' => hpre c' (List.mem_cons_of_mem p hc')) hl hb

/-- C4, amended: in Switch mode an unknown name reported by a
double-hyphen long option fails with the tagged `PyoptError` `"Illegal
option '<name>' given."` carrying that name; but an unknown
two-character short flag, and an unknown character heading a clustered
short-flag token, instead raise an untagged `KeyError` from the
first-letter map lookup (`short_to_name[argument[1]]`), which the
dispatcher does not catch.  (The original claim asserted the tagged
error for all three forms.) -/
theorem claim_c4 (f : FuncSig) :
    (∀ (nm : List Char) (rest : List String), String.mk nm ∉ f.arg_names →
      kwParse f (String.mk ('-' :: '-' :: nm) :: rest) =
        .error (.pyoptError ("Illegal option '" ++ String.mk nm ++ "' given."))) ∧
    (∀ (c : Char) (rest : List String), c ≠ '-' →
      lookupShort (shortMap f.arg_names) c = none →
      kwParse f (String.mk ['-', c] :: rest) = .error (.keyError (String.mk [c]))) ∧
    (∀ (c1 c2 : Char) (cs : List Char) (rest : List String), c1 ≠ '-' →
      lookupShort (shortMap f.arg_names) c1 = none →
      kwParse f (String.mk ('-' :: c1 :: c2 :: cs) :: rest) =
        .error (.keyError (String.mk [c1]))) :=
  ⟨fun nm rest h => kwParse_long_unknown f nm rest h,
   fun c rest hc h => kwParse_short_unknown f c rest hc h,
   fun c1 c2 cs rest hc h => kwParse_cluster_unknown f c1 c2 cs rest hc h⟩

/-- C4, counterexample: the unknown short flag `-x` against `bigfun`
raises `KeyError`, not the tagged `PyoptError`; `run` does not catch it,
so the failure is not recoverable — the claim's "tagged, recoverable
error" fails for the short form. -/
theorem claim_c4_counterexample :
    kwParse bigfunSig ["-x"] = .error (.keyError "x") ∧
    run bigfunReg ["prog.exe", "-x"] = (.crashed (.keyError "x"), []) := by
  decide

/-- C4, witness: the amended behaviour at concrete inputs — the unknown
long option `--zzz` yields the tagged message, the unknown short flag
`-x` yields `KeyError`. -/
theorem claim_c4_witness :
    kwParse bigfunSig [String.mk ('-' :: '-' :: "zzz".toList)] =
      .error (.pyoptError ("Illegal option '" ++ String.mk "zzz".toList ++ "' given.")) ∧
    kwParse bigfunSig [String.mk ['-', 'x']] = .error (.keyError (String.mk ['x'])) :=
  ⟨(claim_c4 bigfunSig).1 "zzz".toList [] (by decide),
   (claim_c4 bigfunSig).2.1 'x' [] (by decide) (by decide)⟩

/-- C5: a single-hyphen token of length greater than 2 resolves every
remaining character through the first-letter map; if every resolved
parameter is boolean the cluster step succeeds with each of them bound
`true`, and if a resolved parameter is not boolean the parse fails with
`"Illegal option '<letter>' given as boolean."`.  Concretely, `-nh`
against `bigfun` sets both `nudge` and `happy` true, and `-nb` (with
`brightness` non-boolean) fails. -/
theorem claim_c5 (f : FuncSig) :
    (∀ (cs : List Char) (d : KW) (lastIn : Option String),
      (∀ c ∈ cs, ∃ nm, lookupShort (shortMap f.arg_names) c = some nm ∧
        f.booleans.contains nm = true) →
      ∃ d' last', clusterFold f (shortMap f.arg_names) cs d lastIn = .ok (d', last') ∧
        ∀ nm c, c ∈ cs → lookupShort (shortMap f.arg_names) c = some nm →
          lookupKW d' nm = some (.vBool true)) ∧
    (∀ (pre : List Char) (c : Char) (post : List Char) (d : KW) (lastIn : Option String)
        (nm : String),
      (∀ c' ∈ pre, ∃ b, lookupShort (shortMap f.arg_names) c' = some b ∧
        f.booleans.contains b = true) →
      lookupShort (shortMap f.arg_names) c = some nm →
      f.booleans.contains nm = false →
      clusterFold f (shortMap f.arg_names) (pre ++ c :: post) d lastIn =
        .error (.pyoptError ("Illegal option '" ++ String.mk [c] ++ "' given as boolean."))) ∧
    kwParse bigfunSig ["-nh", "-b", "5"] =
      .ok ([], [("nudge", .vBool true), ("happy", .vBool true), ("brightness", .vInt 5)]) ∧
    kwParse bigfunSig ["-nb"] =
      .error (.pyoptError "Illegal option 'b' given as boolean.") :=
  ⟨clusterFold_all_bools f (shortMap f.arg_names),
   clusterFold_non_bool f (shortMap f.arg_names),
   by decide, by decide⟩

/-- C5, witness: the cluster-failure characterization applied to
`bigfun` — in the cluster `-nb`, `n` resolves to the boolean `nudge`
and `b` to the non-boolean `brightness`, failing the cluster step. -/
theorem claim_c5_witness :
    clusterFold bigfunSig (shortMap bigfunSig.arg_names) (['n'] ++ 'b' :: [])
        (initBools bigfunSig) none =
      .error (.pyoptError ("Illegal option '" ++ String.mk ['b'] ++ "' given as boolean.")) :=
  (claim_c5 bigfunSig).2.1 ['n'] 'b' [] (initBools bigfunSig) none "brightness"
    (by decide) (by decide) (by decide)
theorem kwLoop_step (f : FuncSig) (stn : List (Char × String)) (fuel : Nat) (a : String)
    (rest : List String) (nv : Option String) (d : KW) :
    kwLoop f stn (fuel + 1) (a :: rest) nv d =
      match kwStep f stn a.toList rest nv d with
      | .error e => .error e
      | .ok (rest', nv', d') => kwLoop f stn fuel rest' nv' d' := rfl

theorem kwResolve_nonbool_ok (f : FuncSig) (name : String) (v : String) (rest : List String)
    (d : KW) (w : Value) (hmem : name ∈ f.arg_names) (hnb : f.castOf name ≠ .cBool)
    (hcast : applyCast (f.castOf name) v = .ok w) :
    kwResolve f name (v :: rest) d = .ok (rest, some name, dictSet d name w) := by
  simp [kwResolve, hmem, pyCastsGet_of_mem hmem, hnb, hcast]

theorem kwResolve_nonbool_error (f : FuncSig) (name : String) (v : String)
    (rest : List String) (d : KW) (e : PyExc) (hmem : name ∈ f.arg_names)
    (hnb : f.castOf name ≠ .cBool) (hcast : applyCast (f.castOf name) v = .error e) :
    kwResolve f name (v :: rest) d = .error e := by
  simp [kwResolve, hmem, pyCastsGet_of_mem hmem, hnb, hcast]
theorem kwParse_repeated_nonbool (f : FuncSig) (t : String) (name : String) (v1 v2 : String)
    (hstep : ∀ (rest : List String) (nv : Option String) (d : KW),
      kwStep f (shortMap f.arg_names) t.toList rest nv d = kwResolve f name rest d)
    (hmem : name ∈ f.arg_names) (hnb : f.castOf name ≠ .cBool)
    (hreq : ∀ r ∈ f.required, r = name) :
    (∀ w1 w2, applyCast (f.castOf name) v1 = .ok w1 → applyCast (f.castOf name) v2 = .ok w2 →
      kwParse f [t, v1, t, v2] =
        .ok ([], dictSet (dictSet (initBools f) name w1) name w2) ∧
      lookupKW (dictSet (dictSet (initBools f) name w1) name w2) name = some w2) ∧
    (∀ e, applyCast (f.castOf name) v1 = .error e →
      kwParse f [t, v1, t, v2] = .error e) := by
  constructor
  · intro w1 w2 h1 h2
    have hkw : kwLoop f (shortMap f.arg_names) ([t, v1, t, v2] : List String).length
        [t, v1, t, v2] none (initBools f) =
        .ok (dictSet (dictSet (initBools f) name w1) name w2) := by
      show kwLoop f (shortMap f.arg_names) (3 + 1) [t, v1, t, v2] none (initBools f) = _
      rw [kwLoop_step, hstep, kwResolve_nonbool_ok f name v1 [t, v2] _ w1 hmem hnb h1]
      dsimp only
      show kwLoop f (shortMap f.arg_names) (2 + 1) [t, v2] (some name)
        (dictSet (initBools f) name w1) = _
      rw [kwLoop_step, hstep, kwResolve_nonbool_ok f name v2 [] _ w2 hmem hnb h2]
      dsimp only
      rfl
    have hng : f.required.filter
        (fun r => !((keysOf (dictSet (dictSet (initBools f) name w1) name w2)).contains r))
          = [] := by
      rw [List.filter_eq_nil_iff]
      intro r hr
      rw [hreq r hr]
      simp
      exact (mem_keysOf_dictSet _ _ _ _).mpr (Or.inl rfl)
    constructor
    · unfold kwParse
      rw [hkw]
      dsimp only
      rw [hng]
      simp
    · exact lookupKW_dictSet_self _ _ _
  · intro e he
    have hkw : kwLoop f (shortMap f.arg_names) ([t, v1, t, v2] : List String).length
        [t, v1, t, v2] none (initBools f) = .error e := by
      show kwLoop f (shortMap f.arg_names) (3 + 1) [t, v1, t, v2] none (initBools f) = _
      rw [kwLoop_step, hstep, kwResolve_nonbool_error f name v1 [t, v2] _ e hmem hnb he]
    unfold kwParse
    rw [hkw]
theorem kwStep_long (f : FuncSig) (stn : List (Char × String)) (nm : List Char)
    (rest : List String) (nv : Option String) (d : KW) :
    kwStep f stn ('-' :: '-' :: nm) rest nv d = kwResolve f (String.mk nm) rest d := by
  unfold kwStep
  split
  · rename_i xs nm' heq
    simp at heq
    rw [heq]
  · rename_i xs c' hne heq
    simp at heq
    exact absurd heq.1 (fun hh => hne hh.symm)
  · rename_i xs c1 c2 cs' hne heq
    simp at heq
    exact absurd heq.1 (fun hh => hne hh.symm)
  · rename_i xs heq
    simp at heq
  · rename_i xs h1 h2 h3 h4
    exact absurd rfl (h1 nm)
/-- C10: in Switch mode a non-boolean option supplied twice — in long or
short form — still parses successfully when all required options are
covered, with the named map holding the cast value of the last
occurrence; and the earlier occurrence's value token is consumed and
cast first, so a cast failure there surfaces as that error. -/
theorem claim_c10 (f : FuncSig) (cs : List Char) (c : Char) (v1 v2 : String)
    (hmem : String.mk cs ∈ f.arg_names) (hnb : f.castOf (String.mk cs) ≠ .cBool)
    (hreq : ∀ r ∈ f.required, r = String.mk cs)
    (hc : c ≠ '-') (hres : lookupShort (shortMap f.arg_names) c = some (String.mk cs)) :
    ((∀ w1 w2, applyCast (f.castOf (String.mk cs)) v1 = .ok w1 →
        applyCast (f.castOf (String.mk cs)) v2 = .ok w2 →
      kwParse f [String.mk ('-' :: '-' :: cs), v1, String.mk ('-' :: '-' :: cs), v2] =
        .ok ([], dictSet (dictSet (initBools f) (String.mk cs) w1) (String.mk cs) w2) ∧
      lookupKW (dictSet (dictSet (initBools f) (String.mk cs) w1) (String.mk cs) w2)
        (String.mk cs) = some w2) ∧
     (∀ e, applyCast (f.castOf (String.mk cs)) v1 = .error e →
      kwParse f [String.mk ('-' :: '-' :: cs), v1, String.mk ('-' :: '-' :: cs), v2] =
        .error e)) ∧
    ((∀ w1 w2, applyCast (f.castOf (String.mk cs)) v1 = .ok w1 →
        applyCast (f.castOf (String.mk cs)) v2 = .ok w2 →
      kwParse f [String.mk ['-', c], v1, String.mk ['-', c], v2] =
        .ok ([], dictSet (dictSet (initBools f) (String.mk cs) w1) (String.mk cs) w2) ∧
      lookupKW (dictSet (dictSet (initBools f) (String.mk cs) w1) (String.mk cs) w2)
        (String.mk cs) = some w2) ∧
     (∀ e, applyCast (f.castOf (String.mk cs)) v1 = .error e →
      kwParse f [String.mk ['-', c], v1, String.mk ['-', c], v2] = .error e)) :=
  ⟨kwParse_repeated_nonbool f (String.mk ('-' :: '-' :: cs)) (String.mk cs) v1 v2
      (fun rest nv d => by
        show kwStep f (shortMap f.arg_names) ('-' :: '-' :: cs) rest nv d = _
        exact kwStep_long f (shortMap f.arg_names) cs rest nv d) hmem hnb hreq,
   kwParse_repeated_nonbool f (String.mk ['-', c]) (String.mk cs) v1 v2
      (fun rest nv d => by
        show kwStep f (shortMap f.arg_names) ['-', c] rest nv d = _
        rw [kwStep_short f (shortMap f.arg_names) c rest nv d hc, hres])
      hmem hnb hreq⟩

/-- C10, witness: `bigfun` with `--brightness 5 --brightness 7` parses
successfully and binds `brightness` to the last value `7`. -/
theorem claim_c10_witness :
    kwParse bigfunSig [String.mk ('-' :: '-' :: "brightness".toList), "5",
        String.mk ('-' :: '-' :: "brightness".toList), "7"] =
      .ok ([], dictSet (dictSet (initBools bigfunSig) (String.mk "brightness".toList)
        (.vInt 5)) (String.mk "brightness".toList) (.vInt 7)) ∧
    lookupKW (dictSet (dictSet (initBools bigfunSig) (String.mk "brightness".toList)
        (.vInt 5)) (String.mk "brightness".toList) (.vInt 7))
      (String.mk "brightness".toList) = some (.vInt 7) :=
  ((claim_c10 bigfunSig "brightness".toList 'b' "5" "7" (by decide) (by decide)
    (by decide) (by decide) (by decide)).1).1 (.vInt 5) (.vInt 7) (by decide) (by decide)
theorem filter_erase_of_not_pred (l : List String) (a : String) (p : String → Bool)
    (h : p a = false) : (l.erase a).filter p = l.filter p := by
  induction l with
  | nil => simp
  | cons x xs ih =>
    rw [List.erase_cons]
    by_cases hx : x = a
    · subst hx
      rw [if_pos (by simp)]
      rw [List.filter_cons_of_neg (by simp [h])]
    · rw [if_neg (by simp [hx])]
      by_cases hp : p x = true
      · rw [List.filter_cons_of_pos hp, List.filter_cons_of_pos hp, ih]
      · rw [List.filter_cons_of_neg (by simp [hp]), List.filter_cons_of_neg (by simp [hp]), ih]

theorem pyListRemove_ok {l l' : List String} {x : String}
    (h : pyListRemove l x = .ok l') : x ∈ l ∧ l' = l.erase x := by
  unfold pyListRemove at h
  by_cases hm : l.contains x = true
  · rw [if_pos hm] at h
    simp at h
    exact ⟨by simpa using hm, h.symm⟩
  · rw [if_neg hm] at h
    simp at h

theorem mixedFlagLoop_names (f : FuncSig) (stn : List (Char × String)) :
    ∀ (optlist : List (String × String)) (names : List String) (nv : Option String)
      (kw : KW) (kwFin : KW) (names' : List String),
      names.Nodup →
      (∀ k, k ∈ keysOf kw → k ∉ names) →
      mixedFlagLoop f stn optlist names nv kw = .ok (kwFin, names') →
      (names' = names.filter (fun n => !((keysOf kwFin).contains n)) ∧
       (∀ k, k ∈ keysOf kw → k ∈ keysOf kwFin)) := by
  intro optlist
  induction optlist with
  | nil =>
    intro names nv kw kwFin names' hnd hdisj h
    unfold mixedFlagLoop at h
    simp at h
    obtain ⟨h1, h2⟩ := h
    subst h1
    subst h2
    refine ⟨?_, fun k hk => hk⟩
    symm
    rw [List.filter_eq_self]
    intro a ha
    simp
    exact fun hk => hdisj a hk ha
  | cons ov optlist ih =>
    intro names nv kw kwFin names' hnd hdisj h
    obtain ⟨opt, val⟩ := ov
    unfold mixedFlagLoop at h
    cases hres : mixedResolveName stn opt nv with
    | error e => rw [hres] at h; simp at h
    | ok name =>
      rw [hres] at h
      dsimp only at h
      cases hcg : f.pyCastsGet name with
      | error e => rw [hcg] at h; simp at h
      | ok vt =>
        rw [hcg] at h
        dsimp only at h
        cases hac : applyCast vt val with
        | error e => rw [hac] at h; simp at h
        | ok w =>
          rw [hac] at h
          dsimp only at h
          cases hrem : pyListRemove names name with
          | error e => rw [hrem] at h; simp at h
          | ok names'' =>
            rw [hrem] at h
            dsimp only at h
            obtain ⟨hmem, hns⟩ := pyListRemove_ok hrem
            subst hns
            have hnd' : (names.erase name).Nodup := hnd.erase name
            have hdisj' : ∀ k, k ∈ keysOf (dictSet kw name w) → k ∉ names.erase name := by
              intro k hk
              rcases (mem_keysOf_dictSet kw name k w).mp hk with rfl | hk2
              · intro hcon
                exact absurd ((hnd.mem_erase_iff).mp hcon).1 (by simp)
              · intro hcon
                exact hdisj k hk2 (List.mem_of_mem_erase hcon)
            obtain ⟨hfin, hkeys⟩ := ih (names.erase name) (some name)
              (dictSet kw name w) kwFin names' hnd' hdisj' h
            have hnamemem : name ∈ keysOf kwFin :=
              hkeys name ((mem_keysOf_dictSet kw name name w).mpr (Or.inl rfl))
            constructor
            · rw [hfin, filter_erase_of_not_pred]
              simp [hnamemem]
            · intro k hk
              exact hkeys k ((mem_keysOf_dictSet kw name k w).mpr (Or.inr hk))
/-- C1: in Hybrid mode, every parameter bound by a leading flag is
removed from the candidate list used for positional binding — the
leftover candidates are exactly the declared names not bound by flags,
in their original declaration order — and the leftover tokens are cast
against them in that order; concretely, on the dice signature, tokens
`6 2` bind positionally `[6, 2]` with an empty named map and `-r 2 6`
binds `[6]` with `{repetitions: 2}`. -/
theorem claim_c1 (f : FuncSig) (raw : List String) (optlist : List (String × String))
    (rest : List String) (kw : KW) (names' : List String)
    (hnd : f.arg_names.Nodup)
    (hget : pyGetopt raw (mixedShorts f) (mixedLongs f) = .ok (optlist, rest))
    (hloop : mixedFlagLoop f (shortMap f.arg_names) optlist f.arg_names none [] =
      .ok (kw, names')) :
    names' = f.arg_names.filter (fun n => !((keysOf kw).contains n)) ∧
    mixedParse f raw =
      (match castByNames f names' rest with
       | .error e => .error e
       | .ok vals => .ok (vals, kw)) ∧
    mixedParse diceSig ["6", "2"] = .ok ([.vInt 6, .vInt 2], []) ∧
    mixedParse diceSig ["-r", "2", "6"] = .ok ([.vInt 6], [("repetitions", .vInt 2)]) := by
  have hinv := mixedFlagLoop_names f (shortMap f.arg_names) optlist f.arg_names none
    [] kw names' hnd (by simp [keysOf]) hloop
  refine ⟨hinv.1, ?_, by decide, by decide⟩
  unfold mixedParse
  rw [hget]
  dsimp only
  rw [hloop]

/-- C1, witness: the characterization applied to the dice signature on
`-r 2 6` — `repetitions` is flag-bound, leaving `number_of_faces` as the
only positional candidate, which receives `6`. -/
theorem claim_c1_witness :
    ["number_of_faces"] = diceSig.arg_names.filter
      (fun n => !((keysOf [("repetitions", Value.vInt 2)]).contains n)) ∧
    mixedParse diceSig ["-r", "2", "6"] =
      (match castByNames diceSig ["number_of_faces"] ["6"] with
       | .error e => .error e
       | .ok vals => .ok (vals, [("repetitions", Value.vInt 2)])) ∧
    mixedParse diceSig ["6", "2"] = .ok ([.vInt 6, .vInt 2], []) ∧
    mixedParse diceSig ["-r", "2", "6"] = .ok ([.vInt 6], [("repetitions", .vInt 2)]) :=
  claim_c1 diceSig ["-r", "2", "6"] [("-r", "2")] ["6"] [("repetitions", .vInt 2)]
    ["number_of_faces"] (by decide) (by decide) (by decide)

/-- C6, counterexample: the same flag token `-n` against the signature
`(nudge:bool)` resolves to the same parameter in both strategies but
binds `true` under Switch and `false` under Hybrid (the `getopt` path
casts the flag's empty value with `bool`, and `bool('')` is `False`),
so the strategies' flag handling is not identical. -/
theorem claim_c6_counterexample :
    kwParse nudgeSig ["-n"] = .ok ([], [("nudge", .vBool true)]) ∧
    mixedParse nudgeSig ["-n"] = .ok ([], [("nudge", .vBool false)]) := by
  decide

/-- C6, amended: Hybrid flag handling agrees with Switch on exact short
flags of required non-boolean parameters with their values in following
tokens (e.g. `-r 2 -n 6` on the dice signature binds identically in
both), but is not identical for every flag token: boolean flags bind
`false` under Hybrid where Switch binds `true` (see the
counterexample). -/
theorem claim_c6 :
    (kwParse diceSig ["-r", "2", "-n", "6"] = mixedParse diceSig ["-r", "2", "-n", "6"] ∧
     kwParse diceSig ["-r", "2", "-n", "6"] =
       .ok ([], [("repetitions", .vInt 2), ("number_of_faces", .vInt 6)])) ∧
    kwParse nudgeSig ["-n"] ≠ mixedParse nudgeSig ["-n"] := by
  decide
/-- C7, amended: `Exposer.run` converts exactly the `PrintHelp`,
`ValueError` and `PyoptError` failures of `parse_args` into printed
lines (appending the rerun-with-help hint for the latter two) and
returns normally; but not every failure is recoverable: an empty
registry raises `NotImplementedError`, a Hybrid-mode scan failure
raises `getopt.GetoptError`, and a non-boolean option given as the last
token with no value raises `IndexError` — none of which `run` catches,
so those inputs crash the process. -/
theorem claim_c7 (reg : Registry) (cmdArgs : List String) :
    (∀ m out, parseArgs reg cmdArgs = (.error (.pyoptError m), out) →
      run reg cmdArgs = (.finished, out ++ [m ++ " Run with ? or -h for more help."])) ∧
    (∀ m out, parseArgs reg cmdArgs = (.error (.valueError m), out) →
      run reg cmdArgs = (.finished, out ++ [m ++ ". Run with ? or -h for more help."])) ∧
    (∀ t out, parseArgs reg cmdArgs = (.error (.printHelp t), out) →
      run reg cmdArgs = (.finished, out ++ [pyStrPrintHelp t])) ∧
    run [] ["prog.exe"] =
      (.crashed (.notImplementedError "No functions were decorated for command-line usage."),
        []) ∧
    run diceReg ["prog.exe", "-x", "1"] =
      (.crashed (.getoptError "option -x not recognized"), []) ∧
    run bigfunReg ["prog.exe", "-b"] = (.crashed .indexError, []) := by
  refine ⟨?_, ?_, ?_, by decide, by decide, by decide⟩
  · intro m out h
    unfold run
    rw [h]
  · intro m out h
    unfold run
    rw [h]
  · intro t out h
    unfold run
    rw [h]

/-- C7, counterexample: three inputs on which the claimed conversion to
a printed diagnostic does not happen — the empty registry, a Hybrid
unknown option, and a trailing non-boolean option with no value all
escape `run` as uncaught exceptions. -/
theorem claim_c7_counterexample :
    run [] ["prog.exe"] =
      (.crashed (.notImplementedError "No functions were decorated for command-line usage."),
        []) ∧
    run diceReg ["prog.exe", "-x", "1"] =
      (.crashed (.getoptError "option -x not recognized"), []) ∧
    run bigfunReg ["prog.exe", "-b"] = (.crashed .indexError, []) := by
  decide

/-- C7, witness: a recoverable failure — the unknown long option
`--zzz` against the single-command `bigfun` registry — is converted by
`run` into the printed diagnostic with the help hint. -/
theorem claim_c7_witness :
    run bigfunReg ["prog.exe", "--zzz"] =
      (.finished, [] ++ ["Illegal option 'zzz' given." ++ " Run with ? or -h for more help."]) :=
  (claim_c7 bigfunReg ["prog.exe", "--zzz"]).1 "Illegal option 'zzz' given." [] (by decide)

/-- C8, amended: with exactly one command registered and a help token as
the first token after the program name, `parse_args` raises `PrintHelp`
carrying `None` — not the usage text; the usage line, which does begin
`"Usage: <program>"`, is printed directly (I/O) by
`print_usage_single_func` before the exception is raised. -/
theorem claim_c8 (fname : String) (w : Wrapped) (prog h : String) (rest : List String)
    (hh : helpSet.contains h = true) :
    parseArgs [(fname, w)] (prog :: h :: rest) =
      (.error (.printHelp none), usageSingleLines (pyBasename prog) w) ∧
    (usageSingleLines (pyBasename prog) w).head? =
      some ("Usage: " ++ pyBasename prog ++ " " ++ wrepr w) := by
  constructor
  · unfold parseArgs
    dsimp only
    rw [if_pos hh]
  · unfold usageSingleLines
    cases (wsig w).doc <;> rfl

/-- C8, counterexample: on the single-command dice registry with argv
`["prog.exe", "-h"]`, the `PrintHelp` raised carries `None`, and the
usage text has already been printed as a side effect (second component)
— contradicting "returns HelpRequested carrying the rendered usage
text" and "the usage rendering itself performs no I/O". -/
theorem claim_c8_counterexample :
    parseArgs diceReg ["prog.exe", "-h"] =
      (.error (.printHelp none),
        ["Usage: prog.exe -n number_of_faces -r repetitions  "]) := by
  decide

/-- C8, witness: the amended statement at the concrete dice registry. -/
theorem claim_c8_witness :
    parseArgs [("roll_dice", Wrapped.mixedW diceSig)] ("prog.exe" :: "-h" :: []) =
      (.error (.printHelp none),
        usageSingleLines (pyBasename "prog.exe") (Wrapped.mixedW diceSig)) ∧
    (usageSingleLines (pyBasename "prog.exe") (Wrapped.mixedW diceSig)).head? =
      some ("Usage: " ++ pyBasename "prog.exe" ++ " " ++ wrepr (Wrapped.mixedW diceSig)) :=
  claim_c8 "roll_dice" (Wrapped.mixedW diceSig) "prog.exe" "-h" [] (by decide)

/-- C9: with two or more commands registered, the first token after the
program name is routed as follows — a help token raises `PrintHelp`; an
exact (case-sensitive, dictionary-lookup) command name forwards exactly
the remaining tokens to that command's `parse`; any other token fails
with the tagged error `"Unkown function '<token>'."` carrying the
token. -/
theorem claim_c9 (reg : Registry) (e1 e2 : String × Wrapped) (reg' : Registry)
    (prog t : String) (rest : List String) (hreg : reg = e1 :: e2 :: reg') :
    (t ∈ helpSet →
      ∃ topt out, parseArgs reg (prog :: t :: rest) = (.error (.printHelp topt), out)) ∧
    (t ∉ helpSet → ∀ w, lookupW reg t = some w →
      parseArgs reg (prog :: t :: rest) =
        (match wparse w rest with
         | .error e => (.error e, [])
         | .ok (args, kw) => (.ok (t, args, kw), []))) ∧
    (t ∉ helpSet → lookupW reg t = none →
      parseArgs reg (prog :: t :: rest) =
        (.error (.pyoptError ("Unkown function '" ++ t ++ "'.")), [])) := by
  subst hreg
  refine ⟨?_, ?_, ?_⟩
  · intro ht
    have hc : helpSet.contains t = true := List.elem_eq_true_of_mem ht
    unfold parseArgs
    dsimp only
    rw [if_pos hc]
    exact ⟨_, _, rfl⟩
  · intro ht w hw
    have hc : helpSet.contains t = false := contains_eq_false_of_not_mem ht
    unfold parseArgs
    dsimp only
    rw [if_neg (by simpa using ht), hw]
  · intro ht hw
    have hc : helpSet.contains t = false := contains_eq_false_of_not_mem ht
    unfold parseArgs
    dsimp only
    rw [if_neg (by simpa using ht), hw]

/-- C9, witness: the multi-command registry with the unknown first token
`unknown_cmd` fails with the tagged unknown-command error. -/
theorem claim_c9_witness :
    parseArgs multiReg ["prog.exe", "unknown_cmd"] =
      (.error (.pyoptError ("Unkown function '" ++ "unknown_cmd" ++ "'.")), []) :=
  (claim_c9 multiReg ("bigfun", .kwargsW bigfunSig) ("roll_dice", .mixedW diceSig) []
    "prog.exe" "unknown_cmd" [] (by decide)).2.2 (by decide) (by decide)
